import Mathlib

/-!
# Verification of the ccheckpoint snapshot engine (`src/checkpoint.ts`)

A shallow embedding of the checkpoint engine of `CheckpointManager`
(`src/checkpoint.ts`): the repository holds one git repo per project whose
commits are snapshots of the project tree.  We model

* a commit store (list of commits, each with oid, optional parent, message,
  committer timestamp and the snapshot tree it points to),
* the two mutable refs `HEAD` and `ORIG_HEAD`,
* the non-ignored portion of the project working tree as an association
  list from path to content hash/content,

and the operations `create`, `list`, `restore`, `cancelRestore`, `diff` and
the commit-message parser `parseCommitMessage` as pure state transformers.
`restore`/`cancelRestore` additionally return the trace of mutation steps
(ref writes and tree materialization) in the order the code performs them.

Fields of `CheckpointData` that carry no engine information are omitted:
`promptIndex` is set to `Date.now()` by the parser ("Temporary value, not
actually needed" per the source comment) and `projectPath` is the ambient
current directory.
-/

/-- A commit/blob identifier (a hex digest string in the code). -/
abbrev Oid := String

/-- A path inside the snapshot tree. -/
abbrev SnapPath := String

/-- A stored file tree: association list from path to the content hash of
the blob at that path (first binding wins, mirroring a map). -/
abbrev Snapshot := List (SnapPath × String)

/-- A git commit as used by `checkpoint.ts`: `git.log` exposes
`commit.oid`, `commit.commit.message`, `commit.commit.committer.timestamp`
(seconds) and the parent link that the log walk follows; the commit also
determines the snapshot tree that `git.checkout` materializes. -/
structure Commit where
  oid : Oid
  parent : Option Oid
  message : String
  timestamp : Nat
  tree : Snapshot
deriving Repr, DecidableEq

/-- The per-project repository state of the engine: the stored commits
(append-only), the two mutable refs `HEAD` and `ORIG_HEAD`, and the
non-ignored portion of the project working tree. -/
structure RepoState where
  commits : List Commit
  head : Option Oid
  origHead : Option Oid
  worktree : Snapshot
deriving Repr, DecidableEq

/-- `Checkpoint` record as returned to callers (engine-relevant fields of
`CheckpointData` in `checkpoint.ts`). -/
structure CheckpointData where
  id : Oid
  sessionId : String
  message : String
  timestamp : Nat
deriving Repr, DecidableEq

/-- Options of `CheckpointManager.list` (the `all`-projects branch is an
independent aggregation over other repositories and is not modelled). -/
structure ListOptions where
  sessionId : Option String
  limit : Option Nat
deriving Repr, DecidableEq

/-- One observable mutation step of `restore`/`cancelRestore`, in the order
the code executes them: a `git.writeRef` of `ORIG_HEAD`, a `git.writeRef`
of `HEAD`, or the working-tree mutation (`git.checkout` of `snapshots`
followed by `syncSnapshotsToProject`). -/
inductive Op where
  | writeOrigHead (v : Oid)
  | writeHead (v : Oid)
  | materializeTree (t : Snapshot)
deriving Repr, DecidableEq

/-- Failure of `git.expandOid` (external git library): the short id matches
no stored oid, or more than one. -/
inductive ExpandError where
  | notFound
  | ambiguous
deriving Repr, DecidableEq

/-- Failures of `CheckpointManager.restore`: the code throws
`Checkpoint ${id} not found` whenever expanding or reading the target
commit fails, and propagates a wrapped git error if `HEAD` cannot be
resolved. -/
inductive RestoreError where
  | notFound (id : String)
  | noHead
deriving Repr, DecidableEq

/-- Failure of `CheckpointManager.cancelRestore`: the code throws
`No restore to cancel - ORIG_HEAD not found`. -/
inductive CancelError where
  | noPendingRestore
deriving Repr, DecidableEq

/-- Resolve an oid to a stored commit, as `git.readCommit` /
`git.resolveRef` over the object store. -/
def findCommit (s : RepoState) (o : Oid) : Option Commit :=
  s.commits.find? (fun c => c.oid == o)

/-- Modelled from the spec: `git.expandOid` of the external git library
(`isomorphic-git`, not part of this repository) expands a short id, per
the spec's `resolvePrefix`: "scans known ids for those starting with
`shortId`; zero matches → `NotFound`; exactly one → that id; more than
one → `Ambiguous`". -/
def expandOid (s : RepoState) (pre : String) : Except ExpandError Oid :=
  match (s.commits.map (fun c => c.oid)).filter
      (fun o => pre.data.isPrefixOf o.data) with
  | [] => .error .notFound
  | [o] => .ok o
  | _ => .error .ambiguous

namespace CheckpointManager

/-- `CheckpointManager.restore` (checkpoint.ts:236-309): expand the id
(any expansion or read failure is caught and rethrown as
`Checkpoint ${id} not found`), read the target commit, resolve `HEAD`,
then mutate in program order: write `ORIG_HEAD := HEAD`, write
`HEAD := target`, materialize the target snapshot into the project tree.
Returns the new state together with the trace of mutation steps in
execution order. -/
def restore (s : RepoState) (id : String) :
    Except RestoreError (RepoState × List Op) :=
  match expandOid s id with
  | .error _ => .error (.notFound id)
  | .ok fullId =>
    match findCommit s fullId with
    | none => .error (.notFound id)
    | some c =>
      match s.head with
      | none => .error .noHead
      | some currentHead =>
        .ok ({ s with
                origHead := some currentHead,
                head := some fullId,
                worktree := c.tree },
             [Op.writeOrigHead currentHead,
              Op.writeHead fullId,
              Op.materializeTree c.tree])

/-- `CheckpointManager.cancelRestore` (checkpoint.ts:568-612): resolve
`ORIG_HEAD` (any failure in the `try` block is rethrown as
`No restore to cancel - ORIG_HEAD not found`), write `HEAD := ORIG_HEAD`,
materialize the `ORIG_HEAD` snapshot.  Note: the code never deletes
`ORIG_HEAD`. -/
def cancelRestore (s : RepoState) :
    Except CancelError (RepoState × List Op) :=
  match s.origHead with
  | none => .error .noPendingRestore
  | some origHead =>
    match findCommit s origHead with
    | none => .error .noPendingRestore
    | some c =>
      .ok ({ s with head := some origHead, worktree := c.tree },
           [Op.writeHead origHead, Op.materializeTree c.tree])

end CheckpointManager

/-- Character class of the session-id capture group in the parsing regex
`/^Session: ([a-f0-9-]+) - (.+)$/` of
`CheckpointManager.parseCommitMessage` (checkpoint.ts:57). -/
def isSessionIdChar (c : Char) : Bool :=
  ('a' ≤ c && c ≤ 'f') || ('0' ≤ c && c ≤ '9') || c == '-'

/-- Characters matched by `.` in a JavaScript regex without the `s` flag:
everything except the line terminators `\n`, `\r`, U+2028 and U+2029. -/
def isDotChar (c : Char) : Bool :=
  !(c == '\n' || c == '\r' || c.toNat == 0x2028 || c.toNat == 0x2029)

/-- The literal prefix of the session message format. -/
def sessionTag : List Char := "Session: ".data

/-- Strip an expected literal prefix from a character list, or fail. -/
def stripPrefixChars : List Char → List Char → Option (List Char)
  | [], l => some l
  | _ :: _, [] => none
  | p :: ps, c :: cs => if c = p then stripPrefixChars ps cs else none

/-- The literal `" - "` separator between the two capture groups. -/
def sepChars : List Char := [' ', '-', ' ']

/-- `message.match(/^Session: ([a-f0-9-]+) - (.+)$/)` on the character
list of the message, returning the two capture groups.  The first group
is the greedy maximal run of `[a-f0-9-]` characters; since the space that
opens the literal `" - "` separator is outside that class, regex
backtracking can never succeed with a shorter first group or a later
separator, so the greedy scan below is exactly the JavaScript match
semantics.  The second group `(.+)$` requires a non-empty remainder with
no line terminator. -/
def matchSession (l : List Char) : Option (List Char × List Char) :=
  match stripPrefixChars sessionTag l with
  | none => none
  | some rest =>
    if (rest.takeWhile isSessionIdChar).isEmpty then none
    else
      match stripPrefixChars sepChars (rest.dropWhile isSessionIdChar) with
      | none => none
      | some msg =>
        if msg.isEmpty then none
        else if msg.all isDotChar then
          some (rest.takeWhile isSessionIdChar, msg)
        else none

/-- `CheckpointManager.parseCommitMessage` (checkpoint.ts:51-80): a
message matching `Session: <sessionId> - <text>` yields that session id
and the remaining text; any other message yields `sessionId = "manual"`
with the whole message kept.  The parser's own `timestamp` (the wall
clock, overwritten by callers with the commit timestamp) is modelled as
`0`. -/
def CheckpointManager.parseCommitMessage (message : String) (oid : Oid) :
    CheckpointData :=
  match matchSession message.data with
  | some (sid, msgChars) =>
    { id := oid, sessionId := String.mk sid,
      message := String.mk msgChars, timestamp := 0 }
  | none =>
    { id := oid, sessionId := "manual", message := message, timestamp := 0 }

/-- A parsed checkpoint with the timestamp taken from the commit
(checkpoint.ts:184-190: `checkpointData.timestamp = new Date(
commit.commit.committer.timestamp * 1000).toISOString()`; comparing the
ISO strings' `getTime()` is order-isomorphic to comparing the raw
second counts, which we keep). -/
def toCheckpoint (c : Commit) : CheckpointData :=
  { CheckpointManager.parseCommitMessage c.message c.oid with
    timestamp := c.timestamp }

/-- `git.log({ depth })`: follow parent links from a ref for at most
`depth` commits, newest first (checkpoint.ts:172-175). -/
def walk (s : RepoState) : Option Oid → Nat → List Commit
  | _, 0 => []
  | none, _ => []
  | some o, d + 1 =>
    match findCommit s o with
    | none => []
    | some c => c :: walk s c.parent d

/-- Stable insertion of a checkpoint into a timestamp-descending list:
an element is placed after every strictly newer element and before every
element that is not newer, which is the ECMAScript stable-`sort`
placement for the comparator `(a, b) => tb - ta`. -/
def insertTs (x : CheckpointData) : List CheckpointData → List CheckpointData
  | [] => [x]
  | y :: ys =>
    if x.timestamp < y.timestamp then y :: insertTs x ys else x :: y :: ys

/-- The `checkpoints.sort((a, b) => getTime(b) - getTime(a))` step of
`CheckpointManager.list` (checkpoint.ts:197-201), as a stable insertion
sort (ECMAScript `Array.prototype.sort` is required to be stable). -/
def sortByTsDesc : List CheckpointData → List CheckpointData
  | [] => []
  | x :: xs => insertTs x (sortByTsDesc xs)

/-- `options.limit || 100` (checkpoint.ts:173): JavaScript `||` treats a
missing limit and a limit of `0` as falsy, defaulting the log depth to
100. -/
def jsOrLimit : Option Nat → Nat
  | some n => if n = 0 then 100 else n
  | none => 100

/-- `a || b` on an optional string, with the JavaScript falsiness of the
empty string. -/
def jsOrStr (a : Option String) (b : String) : String :=
  match a with
  | some v => if v = "" then b else v
  | none => b

/-- `CheckpointManager.list` (checkpoint.ts:159-217), single-project
branch: read the history walk with depth `options.limit || 100`, parse
each commit into a checkpoint carrying the commit timestamp, sort by
timestamp (newest first), then filter by session-id prefix when
`options.sessionId` is truthy and truncate to `options.limit` when
truthy. -/
def CheckpointManager.list (s : RepoState) (options : ListOptions) :
    List CheckpointData :=
  let commits := walk s s.head (jsOrLimit options.limit)
  let checkpoints := sortByTsDesc (commits.map toCheckpoint)
  let filtered :=
    match options.sessionId with
    | some sid =>
      if sid = "" then checkpoints
      else checkpoints.filter (fun cp => sid.data.isPrefixOf cp.sessionId.data)
    | none => checkpoints
  match options.limit with
  | some n => if n = 0 then filtered else filtered.take n
  | none => filtered

/-- `CheckpointManager.create` (checkpoint.ts:82-157): capture the
working tree as a snapshot, commit it with the given message on top of
the current `HEAD`, move `HEAD` to the new commit, and return the
checkpoint record whose session id is
`process.env.CCHECKPOINT_SESSION_ID || sessionId || 'manual'`
(checkpoint.ts:92-96).  The fresh commit id and the wall-clock timestamp
are inputs of the model. -/
def CheckpointManager.create (s : RepoState) (message : String)
    (hookSessionId sessionId : Option String) (newOid : Oid) (ts : Nat) :
    RepoState × CheckpointData :=
  let finalSessionId := jsOrStr hookSessionId (jsOrStr sessionId "manual")
  let c : Commit :=
    { oid := newOid, parent := s.head, message := message,
      timestamp := ts, tree := s.worktree }
  ({ s with commits := c :: s.commits, head := some newOid },
   { id := newOid, sessionId := finalSessionId, message := message,
     timestamp := ts })

/-- Content hash stored at a path of a snapshot (`A.oid` / `B.oid` of a
`git.walk` tree entry). -/
def lookupSnap (p : SnapPath) (t : Snapshot) : Option String :=
  (t.find? (fun e => e.1 == p)).map (fun e => e.2)

/-- The per-path tree comparison that the callback body written at
checkpoint.ts:334-347 spells out, over the union of the paths of the two
trees (the root `.` is skipped and is not represented here): a path
present only in the target tree `A` is `deleted`, present only in the
current tree `B` is `added`, present in both with different content
hashes is `modified`, and identical entries produce nothing.  This is
the intended comparison of `diff` — it is the dead code of the
never-invoked callback, kept here only to state how far the executed
`CheckpointManager.diff` diverges from it. -/
def diffSnapshots (tA tB : Snapshot) : List (String × SnapPath) :=
  ((tA.map (fun e => e.1) ++ tB.map (fun e => e.1)).dedup).filterMap
    (fun p =>
      match lookupSnap p tA, lookupSnap p tB with
      | some _, none => some ("deleted", p)
      | none, some _ => some ("added", p)
      | some a, some b => if a = b then none else some ("modified", p)
      | none, none => none)

/-- `CheckpointManager.diff` (checkpoint.ts:311-354) as executed:
resolve `HEAD` (a failure there propagates, but a resolvable `HEAD` is
the only case the claims exercise), then inside the `try` block call
`git.walk({ fs, dir, trees })` WITHOUT passing the comparison callback
as the `map` option, and invoke `.walk(callback)` on the awaited
result.  That result is the walk's flattened array, which has no `walk`
method, so a `TypeError` is thrown before any path is visited; the
surrounding `catch` only logs it (`console.error('Diff error:', ...)`)
and the function returns the still-empty `changes` array.  Hence the
executed `diff` returns `[]` on every input; the classification of
`diffSnapshots` is never produced. -/
def CheckpointManager.diff (s : RepoState) (_id : Oid) :
    List (String × SnapPath) :=
  match s.head with
  | none => []
  | some _ => []

open CheckpointManager

/-- Commit `v1` of the running example: snapshot `a.txt = "1"`. -/
def commitA : Commit :=
  { oid := "aa", parent := none, message := "v1", timestamp := 1,
    tree := [("a.txt", "1")] }

/-- Commit `v2` of the running example: snapshot `a.txt = "2"`. -/
def commitB : Commit :=
  { oid := "bb", parent := some "aa", message := "v2", timestamp := 2,
    tree := [("a.txt", "2")] }

/-- Example state: two checkpoints, `HEAD` at `v2`, clean working tree,
no pending undo. -/
def exState : RepoState :=
  { commits := [commitA, commitB], head := some "bb", origHead := none,
    worktree := [("a.txt", "2")] }

/-- `exState` after `restore "aa"`. -/
def exAfterRestore : RepoState :=
  { commits := [commitA, commitB], head := some "aa",
    origHead := some "bb", worktree := [("a.txt", "1")] }

/-- `exAfterRestore` after `cancelRestore`. -/
def exAfterCancel : RepoState :=
  { commits := [commitA, commitB], head := some "bb",
    origHead := some "bb", worktree := [("a.txt", "2")] }

/-- Example state for C3: same history as `exState` but the working tree
carries an uncommitted edit `a.txt = "3"` not recorded in any commit. -/
def exDirtyState : RepoState :=
  { commits := [commitA, commitB], head := some "bb", origHead := none,
    worktree := [("a.txt", "3")] }

/-- `exDirtyState` after `restore "aa"`. -/
def exDirtyAfterRestore : RepoState :=
  { commits := [commitA, commitB], head := some "aa",
    origHead := some "bb", worktree := [("a.txt", "1")] }

/-- Example state for C4: two stored commits whose ids share the prefix
`"a"`. -/
def exPrefixState : RepoState :=
  { commits :=
      [{ oid := "a1", parent := none, message := "first", timestamp := 1,
         tree := [] },
       { oid := "a2", parent := some "a1", message := "second",
         timestamp := 2, tree := [] }],
    head := some "a2", origHead := none, worktree := [] }

/-- Example state for C5: the walk head `"nn"` carries an earlier
committer timestamp (100) than its parent `"pp"` (200) — clock skew. -/
def exSkewState : RepoState :=
  { commits :=
      [{ oid := "nn", parent := some "pp", message := "new",
         timestamp := 100, tree := [] },
       { oid := "pp", parent := none, message := "old",
         timestamp := 200, tree := [] }],
    head := some "nn", origHead := none, worktree := [] }

/-- Example history for C6: a linear chain of 101 commits
`c0 → c1 → ⋯ → c100` (oldest last), all reachable from `HEAD = c0`. -/
def chainCommits : List Commit :=
  (List.range 101).map (fun i =>
    { oid := "c" ++ toString i,
      parent := if i = 100 then none else some ("c" ++ toString (i + 1)),
      message := "m", timestamp := 0, tree := [] })

/-- Example state for C6 with the 101-commit chain. -/
def chainState : RepoState :=
  { commits := chainCommits, head := some "c0", origHead := none,
    worktree := [] }

/-- Helper: in the three-element mutation trace of a successful restore,
`writeOrigHead` occurs only at index 0. -/
theorem trace_origHead_idx (a b : Oid) (u : Snapshot) (i : Nat) (v : Oid)
    (h : [Op.writeOrigHead a, Op.writeHead b, Op.materializeTree u].get? i
          = some (Op.writeOrigHead v)) : i = 0 := by
  match i with
  | 0 => rfl
  | 1 => simp [List.get?] at h
  | 2 => simp [List.get?] at h
  | n + 3 => simp [List.get?] at h

/-- Helper: `writeHead` occurs only at index 1 of the restore trace. -/
theorem trace_head_idx (a b : Oid) (u : Snapshot) (i : Nat) (v : Oid)
    (h : [Op.writeOrigHead a, Op.writeHead b, Op.materializeTree u].get? i
          = some (Op.writeHead v)) : i = 1 := by
  match i with
  | 0 => simp [List.get?] at h
  | 1 => rfl
  | 2 => simp [List.get?] at h
  | n + 3 => simp [List.get?] at h

/-- Helper: `materializeTree` occurs only at index 2 of the restore
trace. -/
theorem trace_mat_idx (a b : Oid) (u : Snapshot) (i : Nat) (w : Snapshot)
    (h : [Op.writeOrigHead a, Op.writeHead b, Op.materializeTree u].get? i
          = some (Op.materializeTree w)) : i = 2 := by
  match i with
  | 0 => simp [List.get?] at h
  | 1 => simp [List.get?] at h
  | 2 => rfl
  | n + 3 => simp [List.get?] at h

/-- C1: every `restore` that reaches the mutation phase performs its
mutation steps in the order: `ORIG_HEAD := current HEAD` first, then
`HEAD := target`, then the working-tree mutation; in the trace every
`ORIG_HEAD` write precedes every `HEAD` write and every tree mutation,
and every `HEAD` write precedes every tree mutation. -/
theorem restore_mutation_order (s s' : RepoState) (id : String)
    (tr : List Op) (h : restore s id = .ok (s', tr)) :
    ∃ hv t u, s.head = some hv ∧
      tr = [Op.writeOrigHead hv, Op.writeHead t, Op.materializeTree u] ∧
      (∀ i v, tr.get? i = some (Op.writeOrigHead v) →
        ∀ j w, tr.get? j = some (Op.writeHead w) → i < j) ∧
      (∀ i v, tr.get? i = some (Op.writeOrigHead v) →
        ∀ j w, tr.get? j = some (Op.materializeTree w) → i < j) ∧
      (∀ i v, tr.get? i = some (Op.writeHead v) →
        ∀ j w, tr.get? j = some (Op.materializeTree w) → i < j) := by
  unfold restore at h
  cases hE : expandOid s id with
  | error e => rw [hE] at h; exact absurd h (by simp)
  | ok fullId =>
    rw [hE] at h; dsimp only at h
    cases hF : findCommit s fullId with
    | none => rw [hF] at h; exact absurd h (by simp)
    | some c =>
      rw [hF] at h; dsimp only at h
      cases hH : s.head with
      | none => rw [hH] at h; exact absurd h (by simp)
      | some hv =>
        rw [hH] at h; dsimp only at h
        have htr : tr = [Op.writeOrigHead hv, Op.writeHead fullId,
            Op.materializeTree c.tree] := by
          cases h; rfl
        refine ⟨hv, fullId, c.tree, rfl, htr, ?_, ?_, ?_⟩
        · intro i v hi j w hj
          rw [htr] at hi hj
          rw [trace_origHead_idx _ _ _ _ _ hi, trace_head_idx _ _ _ _ _ hj]
          exact Nat.zero_lt_one
        · intro i v hi j w hj
          rw [htr] at hi hj
          rw [trace_origHead_idx _ _ _ _ _ hi, trace_mat_idx _ _ _ _ _ hj]
          exact Nat.zero_lt_two
        · intro i v hi j w hj
          rw [htr] at hi hj
          rw [trace_head_idx _ _ _ _ _ hi, trace_mat_idx _ _ _ _ _ hj]
          exact Nat.one_lt_two

/-- C1 witness: the ordering theorem instantiated on the concrete example
restore of `exState` to checkpoint `"aa"`. -/
theorem restore_mutation_order_witness :
    ∃ hv t u, exState.head = some hv ∧
      ([Op.writeOrigHead "bb", Op.writeHead "aa",
        Op.materializeTree [("a.txt", "1")]] : List Op)
        = [Op.writeOrigHead hv, Op.writeHead t, Op.materializeTree u] ∧
      (∀ i v, ([Op.writeOrigHead "bb", Op.writeHead "aa",
          Op.materializeTree [("a.txt", "1")]] : List Op).get? i
            = some (Op.writeOrigHead v) →
        ∀ j w, ([Op.writeOrigHead "bb", Op.writeHead "aa",
          Op.materializeTree [("a.txt", "1")]] : List Op).get? j
            = some (Op.writeHead w) → i < j) ∧
      (∀ i v, ([Op.writeOrigHead "bb", Op.writeHead "aa",
          Op.materializeTree [("a.txt", "1")]] : List Op).get? i
            = some (Op.writeOrigHead v) →
        ∀ j w, ([Op.writeOrigHead "bb", Op.writeHead "aa",
          Op.materializeTree [("a.txt", "1")]] : List Op).get? j
            = some (Op.materializeTree w) → i < j) ∧
      (∀ i v, ([Op.writeOrigHead "bb", Op.writeHead "aa",
          Op.materializeTree [("a.txt", "1")]] : List Op).get? i
            = some (Op.writeHead v) →
        ∀ j w, ([Op.writeOrigHead "bb", Op.writeHead "aa",
          Op.materializeTree [("a.txt", "1")]] : List Op).get? j
            = some (Op.materializeTree w) → i < j) :=
  restore_mutation_order exState exAfterRestore "aa"
    [Op.writeOrigHead "bb", Op.writeHead "aa",
     Op.materializeTree [("a.txt", "1")]] (by rfl)

/-- The claim of spec scenario 4 is false on the code: after a successful
`restore "aa"` on `exState` and a successful `cancelRestore`, a second
`cancelRestore` succeeds again (returning the same state and trace)
instead of failing, because `cancelRestore` never deletes `ORIG_HEAD`. -/
theorem cancelRestore_second_call_succeeds_cex :
    restore exState "aa"
      = .ok (exAfterRestore,
             [Op.writeOrigHead "bb", Op.writeHead "aa",
              Op.materializeTree [("a.txt", "1")]]) ∧
    cancelRestore exAfterRestore
      = .ok (exAfterCancel,
             [Op.writeHead "bb", Op.materializeTree [("a.txt", "2")]]) ∧
    cancelRestore exAfterCancel
      = .ok (exAfterCancel,
             [Op.writeHead "bb", Op.materializeTree [("a.txt", "2")]]) :=
  ⟨rfl, rfl, rfl⟩

/-- C2 (amended): `cancelRestore` fails with `NoPendingRestore` when
`ORIG_HEAD` is absent; but a successful `cancelRestore` leaves `ORIG_HEAD`
in place, so it is idempotent: a second `cancelRestore` without an
intervening `restore` succeeds again with the identical resulting state
and mutation trace (the undo slot is single-level but repeatable). -/
theorem cancelRestore_noSlot_and_idempotent (s : RepoState) :
    (s.origHead = none → cancelRestore s = .error .noPendingRestore) ∧
    (∀ s' tr, cancelRestore s = .ok (s', tr) →
      cancelRestore s' = .ok (s', tr)) := by
  constructor
  · intro h
    unfold cancelRestore
    rw [h]
  · intro s' tr h
    unfold cancelRestore at h
    cases hO : s.origHead with
    | none => rw [hO] at h; exact absurd h (by simp)
    | some oh =>
      rw [hO] at h; dsimp only at h
      cases hF : findCommit s oh with
      | none => rw [hF] at h; exact absurd h (by simp)
      | some c =>
        rw [hF] at h; dsimp only at h
        injection h with h
        injection h with h1 h2
        subst h1; subst h2
        unfold cancelRestore
        dsimp only
        have hF2 : findCommit
            ({ commits := s.commits, head := some oh,
               origHead := some oh, worktree := c.tree } : RepoState) oh
            = some c := hF
        rw [hF2]

/-- C2 witness: the amended theorem instantiated: a state without
`ORIG_HEAD` fails, and the concrete post-restore state cancels
idempotently. -/
theorem cancelRestore_noSlot_and_idempotent_witness :
    cancelRestore exState = .error .noPendingRestore ∧
    cancelRestore exAfterCancel
      = .ok (exAfterCancel,
             [Op.writeHead "bb", Op.materializeTree [("a.txt", "2")]]) :=
  ⟨(cancelRestore_noSlot_and_idempotent exState).1 rfl,
   (cancelRestore_noSlot_and_idempotent exAfterRestore).2 exAfterCancel
     [Op.writeHead "bb", Op.materializeTree [("a.txt", "2")]] rfl⟩

/-- C3 is false on the code for arbitrary starting working trees:
starting from `exDirtyState` (uncommitted `a.txt = "3"`), `restore "aa"`
followed by `cancelRestore` leaves the working tree at the `HEAD`
commit's snapshot `a.txt = "2"`, not at the pre-restore contents
`a.txt = "3"`. -/
theorem restore_cancel_not_inverse_cex :
    restore exDirtyState "aa"
      = .ok (exDirtyAfterRestore,
             [Op.writeOrigHead "bb", Op.writeHead "aa",
              Op.materializeTree [("a.txt", "1")]]) ∧
    cancelRestore exDirtyAfterRestore
      = .ok (exAfterCancel,
             [Op.writeHead "bb", Op.materializeTree [("a.txt", "2")]]) ∧
    exAfterCancel.worktree ≠ exDirtyState.worktree :=
  ⟨rfl, rfl, by decide⟩

/-- C3 (amended): if the working tree before `restore` coincides with the
snapshot of the `HEAD` commit (no uncommitted changes), then `restore x`
followed immediately by `cancelRestore` restores the working tree exactly
to its pre-restore contents. -/
theorem restore_cancel_inverse_of_clean (s s1 s2 : RepoState)
    (id : String) (t1 t2 : List Op) (hv : Oid) (c : Commit)
    (hhead : s.head = some hv)
    (hfind : findCommit s hv = some c)
    (hclean : s.worktree = c.tree)
    (hr : restore s id = .ok (s1, t1))
    (hc : cancelRestore s1 = .ok (s2, t2)) :
    s2.worktree = s.worktree := by
  unfold restore at hr
  cases hE : expandOid s id with
  | error e => rw [hE] at hr; exact absurd hr (by simp)
  | ok fullId =>
    rw [hE] at hr; dsimp only at hr
    cases hF : findCommit s fullId with
    | none => rw [hF] at hr; exact absurd hr (by simp)
    | some cT =>
      rw [hF] at hr; dsimp only at hr
      rw [hhead] at hr; dsimp only at hr
      injection hr with hr
      injection hr with hr1 hr2
      subst hr1
      unfold cancelRestore at hc
      dsimp only at hc
      have hF2 : findCommit
          ({ commits := s.commits, head := some fullId,
             origHead := some hv, worktree := cT.tree } : RepoState) hv
          = some c := hfind
      rw [hF2] at hc
      dsimp only at hc
      injection hc with hc
      injection hc with hc1 hc2
      subst hc1
      exact hclean.symm

/-- C3 witness: the amended inverse law instantiated on the clean example
state `exState`. -/
theorem restore_cancel_inverse_of_clean_witness :
    exAfterCancel.worktree = exState.worktree :=
  restore_cancel_inverse_of_clean exState exAfterRestore exAfterCancel
    "aa"
    [Op.writeOrigHead "bb", Op.writeHead "aa",
     Op.materializeTree [("a.txt", "1")]]
    [Op.writeHead "bb", Op.materializeTree [("a.txt", "2")]]
    "bb" commitB rfl rfl rfl rfl rfl

/-- The claim that an ambiguous prefix makes `restore` fail `Ambiguous`
(and never `NotFound`) is false on the code: with two stored ids `"a1"`
and `"a2"`, the prefix `"a"` is ambiguous at the git layer, yet `restore`
catches the expansion failure and reports the generic
`Checkpoint a not found` error. -/
theorem restore_ambiguous_reports_notFound_cex :
    expandOid exPrefixState "a" = .error .ambiguous ∧
    restore exPrefixState "a" = .error (.notFound "a") :=
  ⟨rfl, rfl⟩

/-- C4 (amended): a prefix matching exactly one stored commit id expands
to that id (and a successful `restore` of it targets that commit); a
prefix matching zero ids fails; a prefix matching two or more distinct
ids also fails — `restore` never arbitrarily picks one of several
matches — but in both failure cases the reported error is the same
generic `Checkpoint <id> not found`, not a distinct `Ambiguous` error. -/
theorem restore_prefix_resolution (s : RepoState) (pre : String) :
    (((s.commits.map (fun c => c.oid)).filter
        (fun o => pre.data.isPrefixOf o.data)) = [] →
      restore s pre = .error (.notFound pre)) ∧
    (∀ o, ((s.commits.map (fun c => c.oid)).filter
        (fun o2 => pre.data.isPrefixOf o2.data)) = [o] →
      expandOid s pre = .ok o) ∧
    (2 ≤ ((s.commits.map (fun c => c.oid)).filter
        (fun o => pre.data.isPrefixOf o.data)).length →
      restore s pre = .error (.notFound pre)) := by
  refine ⟨?_, ?_, ?_⟩
  · intro h
    have hE : expandOid s pre = .error .notFound := by
      unfold expandOid
      rw [h]
    unfold restore
    rw [hE]
  · intro o h
    unfold expandOid
    rw [h]
  · intro h
    have hE : expandOid s pre = .error .ambiguous := by
      unfold expandOid
      cases hf : (s.commits.map (fun c => c.oid)).filter
          (fun o => pre.data.isPrefixOf o.data) with
      | nil => rw [hf] at h; simp at h
      | cons a t =>
        cases t with
        | nil => rw [hf] at h; simp at h
        | cons b t2 => rfl
    unfold restore
    rw [hE]

/-- C4 witness: the amended resolution behaviour on the concrete
two-commit state: the unmatched prefix `"zz"` fails, the unique prefix
`"a1"` expands to `"a1"`, and the ambiguous prefix `"a"` fails with the
generic not-found error. -/
theorem restore_prefix_resolution_witness :
    restore exPrefixState "zz" = .error (.notFound "zz") ∧
    expandOid exPrefixState "a1" = .ok "a1" ∧
    restore exPrefixState "a" = .error (.notFound "a") :=
  ⟨(restore_prefix_resolution exPrefixState "zz").1 rfl,
   (restore_prefix_resolution exPrefixState "a1").2.1 "a1" rfl,
   (restore_prefix_resolution exPrefixState "a").2.2 (by decide)⟩

/-- The claim that `list()` returns the parent-link walk order and never
re-sorts by wall-clock timestamp is false on the code: on `exSkewState`
the walk from `HEAD` yields `["nn", "pp"]`, but `list` re-sorts by the
committer timestamps (checkpoint.ts:197-201) and returns
`["pp", "nn"]`. -/
theorem list_not_walk_order_cex :
    ((CheckpointManager.list exSkewState
        { sessionId := none, limit := none }).map (fun cp => cp.id))
      = ["pp", "nn"] ∧
    ((walk exSkewState exSkewState.head 100).map (fun c => c.oid))
      = ["nn", "pp"] ∧
    (["pp", "nn"] : List Oid) ≠ ["nn", "pp"] := by
  refine ⟨?_, ?_, by decide⟩ <;> rfl

/-- The claim that `list()` without a limit walks the history unbounded
is false on the code: on the 101-commit chain, 101 commits are reachable
from `HEAD`, but `list` passes `depth: options.limit || 100` to the log
walk (checkpoint.ts:173) and returns only 100 checkpoints. -/
theorem list_default_depth_cex :
    (walk chainState chainState.head 200).length = 101 ∧
    (CheckpointManager.list chainState
      { sessionId := none, limit := none }).length = 100 :=
  ⟨rfl, rfl⟩

/-- Helper: stable insertion commutes with filtering by an exact
timestamp: the inserted element lands in front of the filtered
subsequence when its timestamp matches, because every element it is
placed behind is strictly newer. -/
theorem filter_insertTs (k : Nat) (x : CheckpointData)
    (l : List CheckpointData) :
    (insertTs x l).filter (fun cp => cp.timestamp == k)
      = if x.timestamp = k
        then x :: l.filter (fun cp => cp.timestamp == k)
        else l.filter (fun cp => cp.timestamp == k) := by
  induction l with
  | nil => simp [insertTs, List.filter_cons]
  | cons y ys ih =>
    unfold insertTs
    by_cases hlt : x.timestamp < y.timestamp
    · rw [if_pos hlt]
      by_cases hy : y.timestamp = k
      · have hx : ¬ x.timestamp = k := by omega
        simp [List.filter_cons, hy, hx, ih]
      · simp [List.filter_cons, hy, ih]
    · rw [if_neg hlt]
      by_cases hx : x.timestamp = k
      · simp [List.filter_cons, hx]
      · simp [List.filter_cons, hx]

/-- Helper: the timestamp re-sort of `list` is stable — filtering the
sorted output by any exact timestamp yields the same subsequence, in the
same order, as filtering the input. -/
theorem filter_sortByTsDesc (k : Nat) (l : List CheckpointData) :
    (sortByTsDesc l).filter (fun cp => cp.timestamp == k)
      = l.filter (fun cp => cp.timestamp == k) := by
  induction l with
  | nil => rfl
  | cons x xs ih =>
    unfold sortByTsDesc
    by_cases hx : x.timestamp = k <;>
      simp [filter_insertTs, ih, List.filter_cons, hx]

/-- C5 (amended): `list()` does re-sort the walk output by wall-clock
timestamp (newest first), so its order deviates from the walk order when
timestamps are out of order; but the sort is stable, so for every
timestamp value the subsequence of checkpoints carrying that timestamp
equals — element for element and in the same relative order — the
subsequence in the parent-link walk order: two checkpoints sharing a
timestamp (same second) never swap. -/
theorem list_same_timestamp_never_swaps (s : RepoState) (k : Nat) :
    (CheckpointManager.list s { sessionId := none, limit := none }).filter
        (fun cp => cp.timestamp == k)
      = ((walk s s.head 100).map toCheckpoint).filter
          (fun cp => cp.timestamp == k) := by
  show (sortByTsDesc ((walk s s.head 100).map toCheckpoint)).filter
      (fun cp => cp.timestamp == k) = _
  exact filter_sortByTsDesc k _

/-- Helper: inserting grows the length by exactly one. -/
theorem length_insertTs (x : CheckpointData) (l : List CheckpointData) :
    (insertTs x l).length = l.length + 1 := by
  induction l with
  | nil => rfl
  | cons y ys ih =>
    unfold insertTs
    by_cases hlt : x.timestamp < y.timestamp
    · rw [if_pos hlt]
      simp [ih]
    · rw [if_neg hlt]
      simp

/-- Helper: the re-sort preserves the number of checkpoints. -/
theorem length_sortByTsDesc (l : List CheckpointData) :
    (sortByTsDesc l).length = l.length := by
  induction l with
  | nil => rfl
  | cons x xs ih =>
    unfold sortByTsDesc
    rw [length_insertTs, ih, List.length_cons]

/-- Helper: a log walk with depth `d` yields at most `d` commits. -/
theorem walk_length_le (s : RepoState) :
    ∀ (d : Nat) (o : Option Oid), (walk s o d).length ≤ d := by
  intro d
  induction d with
  | zero => intro o; cases o <;> simp [walk]
  | succ n ih =>
    intro o
    cases o with
    | none => simp [walk]
    | some x =>
      unfold walk
      cases hF : findCommit s x with
      | none => simp
      | some c =>
        dsimp only
        simp only [List.length_cons]
        exact Nat.succ_le_succ (ih c.parent)

/-- C6 (amended): when `list()` is called without a limit option the
walk depth defaults to 100 (`options.limit || 100`): the result is
exactly the sorted parse of the depth-100 walk from `HEAD`, hence never
contains more than 100 checkpoints — histories with more than 100
reachable commits are silently truncated. -/
theorem list_no_limit_caps_at_100 (s : RepoState) :
    CheckpointManager.list s { sessionId := none, limit := none }
      = sortByTsDesc ((walk s s.head 100).map toCheckpoint) ∧
    (CheckpointManager.list s
      { sessionId := none, limit := none }).length ≤ 100 := by
  refine ⟨rfl, ?_⟩
  show (sortByTsDesc ((walk s s.head 100).map toCheckpoint)).length ≤ 100
  rw [length_sortByTsDesc, List.length_map]
  exact walk_length_le s 100 s.head

/-- C7 evaluation: the executed `diff` reports nothing, ever — on every
state it returns the empty list — although on the concrete example the
intended comparison (the dead callback body of checkpoint.ts:334-347,
`diffSnapshots`) classifies `a.txt` as `modified` between checkpoint
`"aa"` (tree `a.txt = "1"`) and `HEAD = "bb"` (tree `a.txt = "2"`). -/
theorem diff_always_empty :
    (∀ (s : RepoState) (id : Oid), CheckpointManager.diff s id = []) ∧
    diffSnapshots commitA.tree commitB.tree = [("modified", "a.txt")] := by
  constructor
  · intro s id
    unfold CheckpointManager.diff
    cases s.head with
    | none => rfl
    | some h => rfl
  · rfl

/-- Helper: stripping a literal prefix succeeds exactly on lists that
start with it, returning the remainder. -/
theorem stripPrefixChars_iff (pre : List Char) :
    ∀ (l r : List Char), stripPrefixChars pre l = some r ↔ l = pre ++ r := by
  induction pre with
  | nil =>
    intro l r
    simp [stripPrefixChars]
  | cons p ps ih =>
    intro l r
    cases l with
    | nil => simp [stripPrefixChars]
    | cons c cs =>
      by_cases hcp : c = p
      · subst hcp
        simp [stripPrefixChars, ih]
      · simp [stripPrefixChars, hcp]

/-- Helper: every element kept by `takeWhile` satisfies the predicate. -/
theorem takeWhile_all {α : Type _} (p : α → Bool) (l : List α) :
    (l.takeWhile p).all p = true := by
  induction l with
  | nil => rfl
  | cons x xs ih =>
    rw [List.takeWhile_cons]
    cases hx : p x with
    | true => simp [hx, ih]
    | false => simp

/-- Helper: `takeWhile` over a run of satisfying elements followed by a
failing element keeps exactly the run. -/
theorem takeWhile_append_stop {α : Type _} (p : α → Bool) (l1 : List α)
    (x : α) (l2 : List α) (h1 : l1.all p = true) (hx : p x = false) :
    (l1 ++ x :: l2).takeWhile p = l1 := by
  induction l1 with
  | nil => simp [List.takeWhile_cons, hx]
  | cons a as ih =>
    simp only [List.all_cons, Bool.and_eq_true] at h1
    simp [List.takeWhile_cons, h1.1, ih h1.2]

/-- Helper: `dropWhile` over a run of satisfying elements followed by a
failing element drops exactly the run. -/
theorem dropWhile_append_stop {α : Type _} (p : α → Bool) (l1 : List α)
    (x : α) (l2 : List α) (h1 : l1.all p = true) (hx : p x = false) :
    (l1 ++ x :: l2).dropWhile p = x :: l2 := by
  induction l1 with
  | nil => simp [List.dropWhile_cons, hx]
  | cons a as ih =>
    simp only [List.all_cons, Bool.and_eq_true] at h1
    simp [List.dropWhile_cons, h1.1, ih h1.2]

/-- Helper: the regex match succeeds with capture groups `(sid, msg)`
exactly on messages of the shape
`"Session: " ++ sid ++ " - " ++ msg` with `sid` a non-empty `[a-f0-9-]`
run and `msg` non-empty without line terminators. -/
theorem matchSession_iff (l sid msg : List Char) :
    matchSession l = some (sid, msg) ↔
      (l = sessionTag ++ sid ++ ' ' :: '-' :: ' ' :: msg ∧ sid ≠ [] ∧
       sid.all isSessionIdChar = true ∧ msg ≠ [] ∧
       msg.all isDotChar = true) := by
  constructor
  · intro h
    unfold matchSession at h
    cases hst : stripPrefixChars sessionTag l with
    | none => rw [hst] at h; exact absurd h (by simp)
    | some rest =>
      rw [hst] at h; dsimp only at h
      have hl : l = sessionTag ++ rest := (stripPrefixChars_iff _ _ _).mp hst
      by_cases hemp : (rest.takeWhile isSessionIdChar).isEmpty = true
      · rw [if_pos hemp] at h; exact absurd h (by simp)
      · rw [if_neg hemp] at h
        cases hsep : stripPrefixChars sepChars
            (rest.dropWhile isSessionIdChar) with
        | none => rw [hsep] at h; exact absurd h (by simp)
        | some m =>
          rw [hsep] at h; dsimp only at h
          by_cases hm : m.isEmpty = true
          · rw [if_pos hm] at h; exact absurd h (by simp)
          · rw [if_neg hm] at h
            by_cases hdot : m.all isDotChar = true
            · rw [if_pos hdot] at h
              injection h with h
              injection h with h1 h2
              subst h1; subst h2
              have hdw : rest.dropWhile isSessionIdChar = sepChars ++ m :=
                (stripPrefixChars_iff _ _ _).mp hsep
              have hrest : rest
                  = rest.takeWhile isSessionIdChar ++ (sepChars ++ m) := by
                conv_lhs => rw [← List.takeWhile_append_dropWhile
                  (p := isSessionIdChar) (l := rest)]
                rw [hdw]
              refine ⟨?_, ?_, takeWhile_all isSessionIdChar rest, ?_, hdot⟩
              · rw [hl]
                conv_lhs => rw [hrest]
                rw [List.append_assoc]
                rfl
              · intro hnil
                rw [hnil] at hemp
                exact hemp rfl
              · intro hnil
                rw [hnil] at hm
                exact hm rfl
            · rw [if_neg hdot] at h; exact absurd h (by simp)
  · rintro ⟨hl, hsid, hall, hmsg, hdot⟩
    have hspace : isSessionIdChar ' ' = false := rfl
    unfold matchSession
    have hst : stripPrefixChars sessionTag l
        = some (sid ++ ' ' :: '-' :: ' ' :: msg) := by
      apply (stripPrefixChars_iff _ _ _).mpr
      rw [hl, List.append_assoc]
    rw [hst]; dsimp only
    have htw : (sid ++ ' ' :: '-' :: ' ' :: msg).takeWhile isSessionIdChar
        = sid := takeWhile_append_stop isSessionIdChar sid ' '
          ('-' :: ' ' :: msg) hall hspace
    have hdw : (sid ++ ' ' :: '-' :: ' ' :: msg).dropWhile isSessionIdChar
        = ' ' :: '-' :: ' ' :: msg := dropWhile_append_stop isSessionIdChar
          sid ' ' ('-' :: ' ' :: msg) hall hspace
    rw [htw, hdw]
    rw [if_neg (by simpa using hsid)]
    have hsep : stripPrefixChars sepChars (' ' :: '-' :: ' ' :: msg)
        = some msg := (stripPrefixChars_iff _ _ _).mpr rfl
    rw [hsep]; dsimp only
    rw [if_neg (by simpa using hmsg), if_pos hdot]

/-- C8: `parseCommitMessage` parses a commit message against the pattern
`Session: <sessionId> - <text>` (session id over `[a-f0-9-]`, text
non-empty without line terminators): a message of that shape yields that
session id and the remaining text as the checkpoint message, and every
message not of that shape yields `sessionId = "manual"` with the whole
message kept as the checkpoint message. -/
theorem parseCommitMessage_spec (message : String) (oid : Oid) :
    (∀ sid msg,
      message.data = sessionTag ++ sid ++ ' ' :: '-' :: ' ' :: msg →
      sid ≠ [] → sid.all isSessionIdChar = true →
      msg ≠ [] → msg.all isDotChar = true →
      CheckpointManager.parseCommitMessage message oid
        = { id := oid, sessionId := String.mk sid,
            message := String.mk msg, timestamp := 0 }) ∧
    ((∀ sid msg,
        ¬(message.data = sessionTag ++ sid ++ ' ' :: '-' :: ' ' :: msg ∧
          sid ≠ [] ∧ sid.all isSessionIdChar = true ∧
          msg ≠ [] ∧ msg.all isDotChar = true)) →
      CheckpointManager.parseCommitMessage message oid
        = { id := oid, sessionId := "manual", message := message,
            timestamp := 0 }) := by
  constructor
  · intro sid msg hdec hsid hsidall hmsg hmsgall
    unfold CheckpointManager.parseCommitMessage
    rw [(matchSession_iff message.data sid msg).mpr
      ⟨hdec, hsid, hsidall, hmsg, hmsgall⟩]
  · intro hno
    unfold CheckpointManager.parseCommitMessage
    cases hmatch : matchSession message.data with
    | none => rfl
    | some pr =>
      obtain ⟨sid, msg⟩ := pr
      have hchar := (matchSession_iff message.data sid msg).mp hmatch
      exact absurd hchar (hno sid msg)

/-- C8 witness: the parser on a concrete session-formatted message and on
a concrete plain message. -/
theorem parseCommitMessage_spec_witness :
    CheckpointManager.parseCommitMessage "Session: ab-1 - fix bug" "o1"
      = { id := "o1", sessionId := "ab-1", message := "fix bug",
          timestamp := 0 } ∧
    CheckpointManager.parseCommitMessage "plain note" "o2"
      = { id := "o2", sessionId := "manual", message := "plain note",
          timestamp := 0 } := by
  constructor
  · exact (parseCommitMessage_spec "Session: ab-1 - fix bug" "o1").1
      "ab-1".data "fix bug".data (by decide) (by decide) (by decide)
      (by decide) (by decide)
  · apply (parseCommitMessage_spec "plain note" "o2").2
    intro sid msg hcontra
    obtain ⟨heq, hsid, hsall, hmsg, hmall⟩ := hcontra
    have hlen := congrArg List.length heq
    have hL : ("plain note".data).length = 10 := rfl
    have hT : sessionTag.length = 9 := rfl
    rw [hL, List.append_assoc, List.length_append, hT,
        List.length_append] at hlen
    simp only [List.length_cons] at hlen
    have hs1 : 0 < sid.length := List.length_pos.mpr hsid
    omega

/-- C9: `create` never touches `ORIG_HEAD`: for every starting state the
undo slot (present or absent) is identical before and after a successful
`create`, while the new commit is appended on top of the old `HEAD` and
`HEAD` moves to it — a pending undo survives across new checkpoints. -/
theorem create_preserves_origHead (s : RepoState) (message : String)
    (hookSessionId sessionId : Option String) (newOid : Oid) (ts : Nat) :
    (CheckpointManager.create s message hookSessionId sessionId
        newOid ts).1.origHead = s.origHead := rfl

/-- The claim that the returned session id equals the `sessionId`
argument whenever the environment variable is unset is false on the
code for the provided-but-empty argument: with no
`CCHECKPOINT_SESSION_ID` and the argument `""`, the JavaScript `||`
chain treats the empty string as falsy and `create` returns
`sessionId = "manual"`, not `""`. -/
theorem create_empty_sessionId_arg_cex :
    (CheckpointManager.create exState "note" none (some "") "cc" 5).2.sessionId
      = "manual" ∧
    (CheckpointManager.create exState "note" none (some "") "cc" 5).2.sessionId
      ≠ "" :=
  ⟨rfl, by decide⟩

/-- C10 (amended): the session id of the checkpoint returned by `create`
follows the precedence of `hookSessionId || sessionId || 'manual'` with
JavaScript falsiness: a set and non-empty `CCHECKPOINT_SESSION_ID`
environment value always wins — even over an explicitly passed
argument; otherwise a provided and non-empty `sessionId` argument is
used; otherwise (both absent or empty) the session id is `"manual"`. -/
theorem create_sessionId_precedence (s : RepoState) (message : String)
    (env arg : Option String) (newOid : Oid) (ts : Nat) :
    (∀ e, env = some e → e ≠ "" →
      (CheckpointManager.create s message env arg newOid ts).2.sessionId
        = e) ∧
    ((env = none ∨ env = some "") → ∀ a, arg = some a → a ≠ "" →
      (CheckpointManager.create s message env arg newOid ts).2.sessionId
        = a) ∧
    ((env = none ∨ env = some "") → (arg = none ∨ arg = some "") →
      (CheckpointManager.create s message env arg newOid ts).2.sessionId
        = "manual") := by
  refine ⟨?_, ?_, ?_⟩
  · intro e henv he
    subst henv
    show jsOrStr (some e) (jsOrStr arg "manual") = e
    unfold jsOrStr
    dsimp only
    rw [if_neg he]
  · intro henv a harg ha
    subst harg
    cases henv with
    | inl h =>
      subst h
      show jsOrStr none (jsOrStr (some a) "manual") = a
      unfold jsOrStr
      dsimp only
      rw [if_neg ha]
    | inr h =>
      subst h
      show jsOrStr (some "") (jsOrStr (some a) "manual") = a
      unfold jsOrStr
      dsimp only
      rw [if_pos rfl]
      rw [if_neg ha]
  · intro henv harg
    cases henv with
    | inl h =>
      subst h
      cases harg with
      | inl h2 => subst h2; rfl
      | inr h2 => subst h2; rfl
    | inr h =>
      subst h
      cases harg with
      | inl h2 => subst h2; rfl
      | inr h2 => subst h2; rfl

/-- C10 witness: the precedence applied at concrete inputs: a non-empty
environment value beats a passed argument, the argument is used when the
environment is unset, and both missing yield `"manual"`. -/
theorem create_sessionId_precedence_witness :
    (CheckpointManager.create exState "m" (some "envsid") (some "argsid")
        "c7" 9).2.sessionId = "envsid" ∧
    (CheckpointManager.create exState "m" none (some "argsid")
        "c7" 9).2.sessionId = "argsid" ∧
    (CheckpointManager.create exState "m" none none
        "c7" 9).2.sessionId = "manual" :=
  ⟨(create_sessionId_precedence exState "m" (some "envsid") (some "argsid")
      "c7" 9).1 "envsid" rfl (by decide),
   (create_sessionId_precedence exState "m" none (some "argsid")
      "c7" 9).2.1 (Or.inl rfl) "argsid" rfl (by decide),
   (create_sessionId_precedence exState "m" none none
      "c7" 9).2.2 (Or.inl rfl) (Or.inl rfl)⟩
